import Mathlib

/-!
Verification of the fluent request builder (`RequestHandler` in
`src/utils/request-handler.ts`) of the Playwright API-testing repository.

The builder stores `baseUrl`, `apiPath`, `apiParams`, `apiHeader`, `apiBody`
and a bound Playwright `request` handle, mutated by chained methods that
return `this`, and `buildUrl()` composes a URL string via the host
environment's WHATWG `URL` / `URLSearchParams` facilities.

The embedding below models:
  * JS values used by the builder (strings and integer numbers) and JS
    objects as insertion-ordered association lists;
  * the `application/x-www-form-urlencoded` serializer and parser used by
    `URLSearchParams` (percent-encoding over UTF-8 bytes, `+` for space);
  * the WHATWG `URL` constructor, restricted to authority-based URLs
    (`scheme://host[/path][?query]`), which covers every URL the repository
    uses; a string is a valid absolute URL in the model iff it has an
    alphabetic-initial scheme followed by `://` and a nonempty host;
  * the `RequestHandler` class itself, field by field and method by method.
-/

/-! ## JS values and objects -/

/-- Model of the JavaScript values the builder stores as parameter, header and
body values: strings and (integer) numbers. -/
inductive JsValue where
  | str (s : String)
  | num (n : Int)
deriving Repr, DecidableEq

/-- Stringification applied by JS when a value is handed to
`URLSearchParams.append` (`String(value)`); integer numbers print in
decimal. -/
def JsValue.toStr : JsValue → String
  | .str s => s
  | .num n => toString n

/-- Model of a JS object as an insertion-ordered association list, matching
the enumeration order of `Object.entries` for string keys. -/
abbrev JsObject : Type := List (String × JsValue)

/-! ## Percent-encoding (`application/x-www-form-urlencoded`) -/

/-- Hexadecimal digit characters, uppercase, as emitted by the WHATWG
percent-encoder. -/
def hexDigit (n : Nat) : Char :=
  if n < 10 then Char.ofNat (48 + n) else Char.ofNat (55 + n)

/-- Boolean recognizer for hexadecimal digit characters (either case), as
accepted by the WHATWG percent-decoder. -/
def isHexChar (c : Char) : Bool :=
  (48 ≤ c.toNat && c.toNat ≤ 57) || (65 ≤ c.toNat && c.toNat ≤ 70) ||
    (97 ≤ c.toNat && c.toNat ≤ 102)

/-- Numeric value of a hexadecimal digit character. -/
def hexVal (c : Char) : Nat :=
  if 48 ≤ c.toNat && c.toNat ≤ 57 then c.toNat - 48
  else if 65 ≤ c.toNat && c.toNat ≤ 70 then c.toNat - 55
  else if 97 ≤ c.toNat && c.toNat ≤ 102 then c.toNat - 87
  else 0

/-- Bytes left verbatim by the urlencoded serializer: `*`, `-`, `.`, `_`,
ASCII digits and letters.  Every other byte is percent-encoded (space becomes
`+`). -/
def safeByte (b : Nat) : Bool :=
  b == 42 || b == 45 || b == 46 || b == 95 ||
    (48 ≤ b && b ≤ 57) || (65 ≤ b && b ≤ 90) || (97 ≤ b && b ≤ 122)

/-- Urlencoded serialization of one byte: space to `+`, safe bytes verbatim,
everything else `%XX`. -/
def encodeByte (b : Nat) : List Char :=
  if b = 32 then ['+']
  else if safeByte b then [Char.ofNat b]
  else ['%', hexDigit (b / 16), hexDigit (b % 16)]

/-- UTF-8 encoding of one unicode scalar value (a Lean `Char`), as a list of
bytes. -/
def charUtf8 (c : Char) : List Nat :=
  if c.toNat < 128 then [c.toNat]
  else if c.toNat < 2048 then [192 + c.toNat / 64, 128 + c.toNat % 64]
  else if c.toNat < 65536 then
    [224 + c.toNat / 4096, 128 + c.toNat / 64 % 64, 128 + c.toNat % 64]
  else
    [240 + c.toNat / 262144, 128 + c.toNat / 4096 % 64, 128 + c.toNat / 64 % 64,
      128 + c.toNat % 64]

/-- UTF-8 encoding of a character list as a byte list. -/
def utf8Encode (cs : List Char) : List Nat :=
  (cs.map charUtf8).flatten

/-- One-byte-at-a-time UTF-8 decoder state machine: `pend` is the partial
code point accumulated so far, `need` the number of continuation bytes still
expected.  Lenient on malformed input, which the round-trip theorems never
produce. -/
def utf8DecodeSt : Nat → Nat → List Nat → List Char
  | _, _, [] => []
  | pend, need, b :: bs =>
    if need = 0 then
      if b < 128 then Char.ofNat b :: utf8DecodeSt 0 0 bs
      else if b < 224 then utf8DecodeSt (b - 192) 1 bs
      else if b < 240 then utf8DecodeSt (b - 224) 2 bs
      else utf8DecodeSt (b - 240) 3 bs
    else if need = 1 then Char.ofNat (pend * 64 + (b - 128)) :: utf8DecodeSt 0 0 bs
    else utf8DecodeSt (pend * 64 + (b - 128)) (need - 1) bs

/-- UTF-8 decoding of a byte list. -/
def utf8Decode (bs : List Nat) : List Char :=
  utf8DecodeSt 0 0 bs

/-- Urlencoded percent-encoding of a character list: UTF-8 bytes, each
serialized by `encodeByte`. -/
def encodeChars (cs : List Char) : List Char :=
  ((utf8Encode cs).map encodeByte).flatten

/-- Urlencoded percent-decoding of a character list back to bytes: `+` is
space, `%XX` with two hex digits is the byte `XX`, anything else stands for
its own code. -/
def decodeBytes : List Char → List Nat
  | [] => []
  | '%' :: c1 :: c2 :: cs =>
    if isHexChar c1 && isHexChar c2 then (hexVal c1 * 16 + hexVal c2) :: decodeBytes cs
    else 37 :: decodeBytes (c1 :: c2 :: cs)
  | '%' :: cs => 37 :: decodeBytes cs
  | c :: cs => if c = '+' then 32 :: decodeBytes cs else c.toNat :: decodeBytes cs

/-- Full urlencoded decoding of one name or value: percent-decode to bytes,
then UTF-8 decode. -/
def decodeChars (cs : List Char) : List Char :=
  utf8Decode (decodeBytes cs)

/-! ## Query-string serialization and parsing -/

/-- Interleave a separator character between pieces. -/
def intercalateChar (sep : Char) : List (List Char) → List Char
  | [] => []
  | [p] => p
  | p :: ps => p ++ sep :: intercalateChar sep ps

/-- Split a character list at every occurrence of a separator. -/
def splitOnChar (sep : Char) : List Char → List (List Char)
  | [] => [[]]
  | c :: cs =>
    let r := splitOnChar sep cs
    if c = sep then [] :: r else (c :: r.headI) :: r.tail

/-- Split a character list at the first occurrence of a separator; when the
separator is absent the whole input is the first component (as the WHATWG
urlencoded parser does for a nameless pair). -/
def splitFirst (sep : Char) : List Char → List Char × List Char
  | [] => ([], [])
  | c :: cs =>
    if c = sep then ([], cs)
    else
      let r := splitFirst sep cs
      (c :: r.1, r.2)

/-- WHATWG urlencoded serializer over character lists: each pair is
percent-encoded as `name=value` and pairs are joined with `&`. -/
def serializeQueryChars (ps : List (List Char × List Char)) : List Char :=
  intercalateChar '&' (ps.map fun kv => encodeChars kv.1 ++ '=' :: encodeChars kv.2)

/-- WHATWG urlencoded parser over character lists: split on `&`, drop empty
pieces, split each piece at the first `=`, percent-decode both sides. -/
def decodeQueryChars (cs : List Char) : List (List Char × List Char) :=
  ((splitOnChar '&' cs).filter (fun p => p ≠ [])).map fun p =>
    let kv := splitFirst '=' p
    (decodeChars kv.1, decodeChars kv.2)

/-- Urlencoded serializer over strings, the form used by `URL.toString()` for
the search-params component. -/
def serializeQuery (ps : List (String × String)) : String :=
  String.mk (serializeQueryChars (ps.map fun kv => (kv.1.data, kv.2.data)))

/-- Urlencoded parser over strings, the form used by the `URL` constructor to
populate `searchParams` from a query string. -/
def parseQuery (cs : List Char) : List (String × String) :=
  (decodeQueryChars cs).map fun kv => (String.mk kv.1, String.mk kv.2)

/-! ## WHATWG URL model -/

/-- Characters allowed inside a URL scheme after the first (alphabetic)
character. -/
def isSchemeChar (c : Char) : Bool :=
  c.isAlphanum || c == '+' || c == '-' || c == '.'

/-- Characters terminating the host component of an authority-based URL. -/
def isHostEnd (c : Char) : Bool :=
  c == '/' || c == '?' || c == '#'

/-- Parsed URL record, mirroring the components of the host environment's
`URL` object that the builder touches: scheme, host, pathname and the
`searchParams` pair list. -/
structure URLRec where
  scheme : String
  host : String
  pathname : String
  searchParams : List (String × String)
deriving Repr, DecidableEq

/-- Model of the host environment's WHATWG `URL` constructor, restricted to
authority-based URLs `scheme://host[/path][?query][#fragment]` (the shape of
every URL in the repository).  A string is a valid absolute URL in the model
iff it has a nonempty scheme starting with a letter, followed by `://` and a
nonempty host.  `none` models the `TypeError` the constructor throws on
invalid input (e.g. `new URL('')`). -/
def parseURL (s : String) : Option URLRec :=
  match s.data.takeWhile isSchemeChar, s.data.dropWhile isSchemeChar with
  | c0 :: sc, ':' :: '/' :: '/' :: r =>
    if c0.isAlpha then
      let hostCs := r.takeWhile (fun c => !isHostEnd c)
      let rest2 := r.dropWhile (fun c => !isHostEnd c)
      if hostCs.isEmpty then none
      else
        let pathCs := rest2.takeWhile (fun c => !(c == '?' || c == '#'))
        let rest3 := rest2.dropWhile (fun c => !(c == '?' || c == '#'))
        let queryPairs :=
          match rest3 with
          | '?' :: q => parseQuery (q.takeWhile (fun c => !(c == '#')))
          | _ => []
        some ⟨String.mk (c0 :: sc), String.mk hostCs, String.mk pathCs, queryPairs⟩
    else none
  | _, _ => none

/-- Model of `URL.toString()` for the components the builder uses: empty
pathname serializes as `/`, and a nonempty `searchParams` list serializes as
`?` followed by its urlencoded form. -/
def urlToString (u : URLRec) : String :=
  u.scheme ++ "://" ++ u.host ++ (if u.pathname.isEmpty then "/" else u.pathname) ++
    (if u.searchParams.isEmpty then "" else "?" ++ serializeQuery u.searchParams)

/-! ## The `RequestHandler` class -/

/-- The private fields of `RequestHandler`, one per TypeScript field.  The
Playwright `request` object is opaque to the class (`any`, initialized to
`null`), so the state is polymorphic in its type `R` and stores an
`Option R`. -/
structure RequestHandler (R : Type) where
  defaultBaseUrl : String := "https://conduit-api.bondaracademy.com"
  baseUrl : String := ""
  apiPath : String := ""
  apiParams : JsObject := []
  apiHeader : JsObject := []
  apiBody : JsObject := []
  request : Option R := none
deriving Repr, DecidableEq

/-- Exception kind surfaced by `buildUrl` when the `URL` constructor throws
(`TypeError: Invalid URL`).  The spec calls this `InvalidUrlError`. -/
inductive UrlError where
  | invalidUrl
deriving Repr, DecidableEq

/-- A freshly constructed `new RequestHandler()`: every field holds its
initializer. -/
def emptyHandler (R : Type) : RequestHandler R := {}

/-- Method `url(url)`: stores the base URL and returns `this`. -/
def RequestHandler.url {R : Type} (self : RequestHandler R) (u : String) : RequestHandler R :=
  { self with baseUrl := u }

/-- Method `path(path)`: stores the API path and returns `this`. -/
def RequestHandler.path {R : Type} (self : RequestHandler R) (p : String) : RequestHandler R :=
  { self with apiPath := p }

/-- Method `param(param)`: stores the query-parameter object (whole-object
assignment, no merging) and returns `this`. -/
def RequestHandler.param {R : Type} (self : RequestHandler R) (p : JsObject) : RequestHandler R :=
  { self with apiParams := p }

/-- Method `header(header)`: stores the header object (whole-object
assignment, no merging) and returns `this`. -/
def RequestHandler.header {R : Type} (self : RequestHandler R) (h : JsObject) : RequestHandler R :=
  { self with apiHeader := h }

/-- Method `body(body)`: stores the body object and returns `this`. -/
def RequestHandler.body {R : Type} (self : RequestHandler R) (b : JsObject) : RequestHandler R :=
  { self with apiBody := b }

/-- Method `withRequest(request)`: stores the Playwright request handle and
returns `this`. -/
def RequestHandler.withRequest {R : Type} (self : RequestHandler R) (r : R) : RequestHandler R :=
  { self with request := some r }

/-- Method `reset()`: reassigns `baseUrl`, `apiPath`, `apiParams`,
`apiHeader`, `apiBody` to their initializers; the `request` field is not
touched. -/
def RequestHandler.reset {R : Type} (self : RequestHandler R) : RequestHandler R :=
  { self with baseUrl := "", apiPath := "", apiParams := [], apiHeader := [], apiBody := [] }

/-- Entries of the stored parameter object as the string pairs that
`URLSearchParams.append(Key, value)` receives (JS stringifies the value). -/
def stringEntries (o : JsObject) : List (String × String) :=
  (o : List (String × JsValue)).map fun kv => (kv.1, kv.2.toStr)

/-- Method `buildUrl()`, line by line:
`new URL(`${this.baseUrl ?? this.defaultBaseUrl}`)` — the field `baseUrl` has
the non-nullable TypeScript type `string` (initializer `''`), so the nullish
coalescing keeps `this.baseUrl` in every reachable state and the template
literal is just `this.baseUrl`; a parse failure is the thrown `TypeError`.
The loop `for ([Key, value] of Object.entries(this.apiParams))
url.searchParams.append(Key, value)` appends the stringified entries at the
end of the URL's search-params list.  `url.toString()` serializes.  The
stored `apiPath` is never read.  (`console.log` does not affect state or
result.) -/
def RequestHandler.buildUrl {R : Type} (self : RequestHandler R) : Except UrlError String :=
  match parseURL self.baseUrl with
  | none => .error .invalidUrl
  | some u =>
    .ok (urlToString { u with searchParams := u.searchParams ++ stringEntries self.apiParams })

/-! ## Public interface as an operation alphabet

To reason about what the class exposes (and returns) as a whole, the public
surface is also given as an operation type with a small-step semantics: each
operation maps a state to the successor state together with its observable
result (`this`, or the string/exception from `buildUrl`). -/

/-- One call to a public method of `RequestHandler`. -/
inductive Op (R : Type) where
  | url (u : String)
  | path (p : String)
  | param (p : JsObject)
  | header (h : JsObject)
  | body (b : JsObject)
  | withRequest (r : R)
  | reset
  | buildUrl
deriving DecidableEq

instance {ε α : Type} [DecidableEq ε] [DecidableEq α] : DecidableEq (Except ε α)
  | .error e1, .error e2 =>
    if h : e1 = e2 then isTrue (by rw [h]) else isFalse (fun hc => h (Except.error.inj hc))
  | .error _, .ok _ => isFalse Except.noConfusion
  | .ok _, .error _ => isFalse Except.noConfusion
  | .ok v1, .ok v2 =>
    if h : v1 = v2 then isTrue (by rw [h]) else isFalse (fun hc => h (Except.ok.inj hc))

/-- Observable result of one call: the fluent `this`, or the value/exception
produced by `buildUrl`. -/
inductive Out where
  | self
  | urlResult (r : Except UrlError String)
deriving Repr, DecidableEq

/-- Small-step semantics of one public call: successor state and observable
result.  Only the seven configuration methods assign fields; `buildUrl`
assigns none, so its successor state is the input state. -/
def step {R : Type} (st : RequestHandler R) : Op R → RequestHandler R × Out
  | .url u => (st.url u, .self)
  | .path p => (st.path p, .self)
  | .param p => (st.param p, .self)
  | .header h => (st.header h, .self)
  | .body b => (st.body b, .self)
  | .withRequest r => (st.withRequest r, .self)
  | .reset => (st.reset, .self)
  | .buildUrl => (st, .urlResult st.buildUrl)

/-- Run a sequence of public calls, collecting the observable results. -/
def runOps {R : Type} (st : RequestHandler R) : List (Op R) → RequestHandler R × List Out
  | [] => (st, [])
  | op :: ops =>
    let s2 := step st op
    let s3 := runOps s2.1 ops
    (s3.1, s2.2 :: s3.2)

/-- Agreement of two builder states on every field except `apiHeader` and
`apiBody`.  Used to ask whether the stored headers and body are observable
through the public interface at all. -/
def hbAgree {R : Type} (st st2 : RequestHandler R) : Prop :=
  st.defaultBaseUrl = st2.defaultBaseUrl ∧ st.baseUrl = st2.baseUrl ∧
    st.apiPath = st2.apiPath ∧ st.apiParams = st2.apiParams ∧ st.request = st2.request

/-! ## Reference-identity model of the fluent interface

In TypeScript every method ends in `return this`: the value returned is the
same object reference the method was called on.  To state this, builder
objects live in a store indexed by references, and each method maps
(store, receiver reference, argument) to (updated store, returned
reference). -/

/-- A store of `RequestHandler` objects indexed by references. -/
def Store (R : Type) : Type := Nat → RequestHandler R

/-- Overwrite one reference cell of a store. -/
def writeStore {R : Type} (σ : Store R) (r : Nat) (v : RequestHandler R) : Store R :=
  fun i => if i = r then v else σ i

/-- Reference-level semantics of `url(url)`: the body is
`this.baseUrl = url; return this` — mutate the receiver's cell, return the
receiver reference. -/
def urlRef {R : Type} (σ : Store R) (self : Nat) (u : String) : Store R × Nat :=
  (writeStore σ self ((σ self).url u), self)

/-- Reference-level semantics of `path(path)`. -/
def pathRef {R : Type} (σ : Store R) (self : Nat) (p : String) : Store R × Nat :=
  (writeStore σ self ((σ self).path p), self)

/-- Reference-level semantics of `param(param)`. -/
def paramRef {R : Type} (σ : Store R) (self : Nat) (p : JsObject) : Store R × Nat :=
  (writeStore σ self ((σ self).param p), self)

/-- Reference-level semantics of `header(header)`. -/
def headerRef {R : Type} (σ : Store R) (self : Nat) (h : JsObject) : Store R × Nat :=
  (writeStore σ self ((σ self).header h), self)

/-- Reference-level semantics of `body(body)`. -/
def bodyRef {R : Type} (σ : Store R) (self : Nat) (b : JsObject) : Store R × Nat :=
  (writeStore σ self ((σ self).body b), self)

/-- Reference-level semantics of `withRequest(request)`. -/
def withRequestRef {R : Type} (σ : Store R) (self : Nat) (r : R) : Store R × Nat :=
  (writeStore σ self ((σ self).withRequest r), self)

/-- Reference-level semantics of `reset()`. -/
def resetRef {R : Type} (σ : Store R) (self : Nat) : Store R × Nat :=
  (writeStore σ self (σ self).reset, self)

/-! ## General lemmas about the encoding layer -/

theorem toNat_ofNat_valid {n : Nat} (h : n < 55296) : (Char.ofNat n).toNat = n := by
  rw [Char.ofNat, dif_pos (Or.inl h)]
  rfl

theorem char_toNat_lt (c : Char) : c.toNat < 1114112 := by
  rcases c.valid with h | ⟨h1, h2⟩
  · exact Nat.lt_trans h (by decide)
  · exact h2

theorem hexVal_hexDigit : ∀ n : Fin 16, hexVal (hexDigit n.val) = n.val := by decide

theorem isHexChar_hexDigit : ∀ n : Fin 16, isHexChar (hexDigit n.val) = true := by decide

theorem hexDigit_not_special : ∀ n : Fin 16,
    hexDigit n.val ≠ '&' ∧ hexDigit n.val ≠ '=' := by decide

theorem safeByte_props {b : Nat} (h : safeByte b = true) :
    b ≠ 32 ∧ b ≠ 43 ∧ b ≠ 37 ∧ b ≠ 38 ∧ b ≠ 61 := by
  simp [safeByte] at h
  omega

theorem decodeBytes_encodeByte {b : Nat} (hb : b < 256) (cs : List Char) :
    decodeBytes (encodeByte b ++ cs) = b :: decodeBytes cs := by
  unfold encodeByte
  by_cases h32 : b = 32
  · subst h32
    simp [decodeBytes]
  · by_cases hs : safeByte b
    · obtain ⟨-, h43, h37, -, -⟩ := safeByte_props hs
      have hval : (Char.ofNat b).toNat = b := toNat_ofNat_valid (by omega)
      have hne1 : Char.ofNat b ≠ '+' := fun hc => h43 (by rw [← hval, hc]; rfl)
      have hne2 : Char.ofNat b ≠ '%' := fun hc => h37 (by rw [← hval, hc]; rfl)
      simp [h32, hs, decodeBytes, hne1, hne2, hval]
    · have hhex1 : isHexChar (hexDigit (b / 16)) = true := isHexChar_hexDigit ⟨b / 16, by omega⟩
      have hhex2 : isHexChar (hexDigit (b % 16)) = true := isHexChar_hexDigit ⟨b % 16, by omega⟩
      have hv1 : hexVal (hexDigit (b / 16)) = b / 16 := hexVal_hexDigit ⟨b / 16, by omega⟩
      have hv2 : hexVal (hexDigit (b % 16)) = b % 16 := hexVal_hexDigit ⟨b % 16, by omega⟩
      have harith : b / 16 * 16 + b % 16 = b := by omega
      simp [h32, hs, decodeBytes, hhex1, hhex2, hv1, hv2, harith]

theorem decodeBytes_encodeBytes {bs : List Nat} (h : ∀ b ∈ bs, b < 256) :
    decodeBytes ((bs.map encodeByte).flatten) = bs := by
  induction bs with
  | nil => rfl
  | cons b bs ih =>
    simp only [List.map_cons, List.flatten_cons]
    rw [decodeBytes_encodeByte (h b (by simp)), ih (fun x hx => h x (by simp [hx]))]

theorem charUtf8_lt {c : Char} : ∀ b ∈ charUtf8 c, b < 256 := by
  intro b hb
  have h := char_toNat_lt c
  unfold charUtf8 at hb
  split at hb
  · simp at hb
    omega
  · split at hb
    · simp at hb
      rcases hb with hb | hb <;> omega
    · split at hb
      · simp at hb
        rcases hb with hb | hb | hb <;> omega
      · simp at hb
        rcases hb with hb | hb | hb | hb <;> omega

theorem utf8Encode_lt {cs : List Char} : ∀ b ∈ utf8Encode cs, b < 256 := by
  intro b hb
  unfold utf8Encode at hb
  rw [List.mem_flatten] at hb
  obtain ⟨l, hl, hbl⟩ := hb
  rw [List.mem_map] at hl
  obtain ⟨c, -, rfl⟩ := hl
  exact charUtf8_lt b hbl

theorem utf8DecodeSt_start1 {b : Nat} (h : b < 128) (bs : List Nat) :
    utf8DecodeSt 0 0 (b :: bs) = Char.ofNat b :: utf8DecodeSt 0 0 bs := by
  rw [utf8DecodeSt]
  simp [h]

theorem utf8DecodeSt_start2 {b : Nat} (h1 : ¬b < 128) (h2 : b < 224) (bs : List Nat) :
    utf8DecodeSt 0 0 (b :: bs) = utf8DecodeSt (b - 192) 1 bs := by
  rw [utf8DecodeSt]
  simp [h1, h2]

theorem utf8DecodeSt_start3 {b : Nat} (h1 : ¬b < 128) (h2 : ¬b < 224) (h3 : b < 240)
    (bs : List Nat) : utf8DecodeSt 0 0 (b :: bs) = utf8DecodeSt (b - 224) 2 bs := by
  rw [utf8DecodeSt]
  simp [h1, h2, h3]

theorem utf8DecodeSt_start4 {b : Nat} (h1 : ¬b < 128) (h2 : ¬b < 224) (h3 : ¬b < 240)
    (bs : List Nat) : utf8DecodeSt 0 0 (b :: bs) = utf8DecodeSt (b - 240) 3 bs := by
  rw [utf8DecodeSt]
  simp [h1, h2, h3]

theorem utf8DecodeSt_cont1 (pend b : Nat) (bs : List Nat) :
    utf8DecodeSt pend 1 (b :: bs) =
      Char.ofNat (pend * 64 + (b - 128)) :: utf8DecodeSt 0 0 bs := by
  rw [utf8DecodeSt]
  simp

theorem utf8DecodeSt_cont2 (pend b : Nat) (bs : List Nat) :
    utf8DecodeSt pend 2 (b :: bs) = utf8DecodeSt (pend * 64 + (b - 128)) 1 bs := by
  rw [utf8DecodeSt]
  simp

theorem utf8DecodeSt_cont3 (pend b : Nat) (bs : List Nat) :
    utf8DecodeSt pend 3 (b :: bs) = utf8DecodeSt (pend * 64 + (b - 128)) 2 bs := by
  rw [utf8DecodeSt]
  simp

theorem utf8DecodeSt_charUtf8 (c : Char) (bs : List Nat) :
    utf8DecodeSt 0 0 (charUtf8 c ++ bs) = c :: utf8DecodeSt 0 0 bs := by
  have hlt := char_toNat_lt c
  unfold charUtf8
  by_cases k1 : c.toNat < 128
  · simp only [if_pos k1, List.cons_append, List.nil_append]
    rw [utf8DecodeSt_start1 k1, Char.ofNat_toNat]
  · by_cases k2 : c.toNat < 2048
    · simp only [if_neg k1, if_pos k2, List.cons_append, List.nil_append]
      rw [utf8DecodeSt_start2 (by omega) (by omega), utf8DecodeSt_cont1]
      have harith : (192 + c.toNat / 64 - 192) * 64 + (128 + c.toNat % 64 - 128) = c.toNat := by
        omega
      rw [harith, Char.ofNat_toNat]
    · by_cases k3 : c.toNat < 65536
      · simp only [if_neg k1, if_neg k2, if_pos k3, List.cons_append, List.nil_append]
        rw [utf8DecodeSt_start3 (by omega) (by omega) (by omega), utf8DecodeSt_cont2,
          utf8DecodeSt_cont1]
        have harith : ((224 + c.toNat / 4096 - 224) * 64 + (128 + c.toNat / 64 % 64 - 128)) * 64 +
            (128 + c.toNat % 64 - 128) = c.toNat := by omega
        rw [harith, Char.ofNat_toNat]
      · simp only [if_neg k1, if_neg k2, if_neg k3, List.cons_append, List.nil_append]
        rw [utf8DecodeSt_start4 (by omega) (by omega) (by omega), utf8DecodeSt_cont3,
          utf8DecodeSt_cont2, utf8DecodeSt_cont1]
        have harith : (((240 + c.toNat / 262144 - 240) * 64 +
            (128 + c.toNat / 4096 % 64 - 128)) * 64 + (128 + c.toNat / 64 % 64 - 128)) * 64 +
            (128 + c.toNat % 64 - 128) = c.toNat := by omega
        rw [harith, Char.ofNat_toNat]

theorem utf8Decode_utf8Encode (cs : List Char) : utf8Decode (utf8Encode cs) = cs := by
  unfold utf8Decode
  induction cs with
  | nil => rfl
  | cons c cs ih =>
    unfold utf8Encode
    simp only [List.map_cons, List.flatten_cons]
    rw [utf8DecodeSt_charUtf8]
    unfold utf8Encode at ih
    rw [ih]

theorem decodeChars_encodeChars (cs : List Char) : decodeChars (encodeChars cs) = cs := by
  unfold decodeChars encodeChars utf8Decode
  rw [decodeBytes_encodeBytes utf8Encode_lt]
  have h := utf8Decode_utf8Encode cs
  unfold utf8Decode at h
  exact h

theorem encodeByte_sep_free {b : Nat} (hb : b < 256) {c : Char} (hc : c ∈ encodeByte b) :
    c ≠ '&' ∧ c ≠ '=' := by
  unfold encodeByte at hc
  by_cases h32 : b = 32
  · rw [if_pos h32] at hc
    simp at hc
    subst hc
    exact ⟨by decide, by decide⟩
  · by_cases hs : safeByte b
    · rw [if_neg h32, if_pos hs] at hc
      simp at hc
      subst hc
      obtain ⟨-, -, -, h38, h61⟩ := safeByte_props hs
      have hval : (Char.ofNat b).toNat = b := toNat_ofNat_valid (by omega)
      constructor
      · exact fun hcc => h38 (by rw [← hval, hcc]; rfl)
      · exact fun hcc => h61 (by rw [← hval, hcc]; rfl)
    · rw [if_neg h32, if_neg hs] at hc
      simp at hc
      rcases hc with hc | hc | hc
      · subst hc
        exact ⟨by decide, by decide⟩
      · subst hc
        exact hexDigit_not_special ⟨b / 16, by omega⟩
      · subst hc
        exact hexDigit_not_special ⟨b % 16, by omega⟩

theorem encodeChars_sep_free {cs : List Char} {c : Char} (hc : c ∈ encodeChars cs) :
    c ≠ '&' ∧ c ≠ '=' := by
  unfold encodeChars at hc
  rw [List.mem_flatten] at hc
  obtain ⟨l, hl, hcl⟩ := hc
  rw [List.mem_map] at hl
  obtain ⟨b, hb, rfl⟩ := hl
  exact encodeByte_sep_free (utf8Encode_lt b hb) hcl

theorem splitOnChar_sep_free {sep : Char} {cs : List Char} (h : ∀ c ∈ cs, c ≠ sep) :
    splitOnChar sep cs = [cs] := by
  induction cs with
  | nil => rfl
  | cons c cs ih =>
    have hc : c ≠ sep := h c (by simp)
    rw [splitOnChar]
    simp only [ih (fun x hx => h x (by simp [hx])), if_neg hc]
    rfl

theorem splitOnChar_append {sep : Char} {xs rest : List Char} (h : ∀ c ∈ xs, c ≠ sep) :
    splitOnChar sep (xs ++ sep :: rest) = xs :: splitOnChar sep rest := by
  induction xs with
  | nil =>
    simp only [List.nil_append]
    rw [splitOnChar]
    simp
  | cons c xs ih =>
    have hc : c ≠ sep := h c (by simp)
    simp only [List.cons_append]
    rw [splitOnChar]
    simp only [ih (fun x hx => h x (by simp [hx])), if_neg hc]
    rfl

theorem splitOnChar_intercalateChar {sep : Char} {ps : List (List Char)} (hne : ps ≠ [])
    (h : ∀ p ∈ ps, ∀ c ∈ p, c ≠ sep) :
    splitOnChar sep (intercalateChar sep ps) = ps := by
  induction ps with
  | nil => exact absurd rfl hne
  | cons p ps ih =>
    cases ps with
    | nil => exact splitOnChar_sep_free (h p (by simp))
    | cons q ps2 =>
      rw [show intercalateChar sep (p :: q :: ps2) = p ++ sep :: intercalateChar sep (q :: ps2)
        from rfl]
      rw [splitOnChar_append (h p (by simp))]
      rw [ih (by simp) (fun x hx => h x (by simp [hx]))]

theorem splitFirst_append {sep : Char} {k v : List Char} (h : ∀ c ∈ k, c ≠ sep) :
    splitFirst sep (k ++ sep :: v) = (k, v) := by
  induction k with
  | nil =>
    simp only [List.nil_append]
    rw [splitFirst]
    simp
  | cons c k ih =>
    have hc : c ≠ sep := h c (by simp)
    simp only [List.cons_append]
    rw [splitFirst]
    simp only [ih (fun x hx => h x (by simp [hx])), if_neg hc]

theorem decodeQueryChars_serializeQueryChars (ps : List (List Char × List Char)) :
    decodeQueryChars (serializeQueryChars ps) = ps := by
  cases ps with
  | nil => rfl
  | cons p0 ps0 =>
    unfold serializeQueryChars decodeQueryChars
    rw [splitOnChar_intercalateChar (by simp) ?sepfree]
    case sepfree =>
      intro p hp c hcp
      rw [List.mem_map] at hp
      obtain ⟨kv, -, rfl⟩ := hp
      rcases List.mem_append.mp hcp with hmem | hmem
      · exact (encodeChars_sep_free hmem).1
      · rcases List.mem_cons.mp hmem with rfl | hmem
        · decide
        · exact (encodeChars_sep_free hmem).1
    rw [List.filter_eq_self.mpr ?nonempty]
    case nonempty =>
      intro p hp
      rw [List.mem_map] at hp
      obtain ⟨kv, -, rfl⟩ := hp
      simp
    rw [List.map_map]
    apply List.map_id''
    intro kv
    simp only [Function.comp_apply]
    rw [splitFirst_append (fun c hc => (encodeChars_sep_free hc).2)]
    simp only [decodeChars_encodeChars]

theorem parseQuery_serializeQuery (ps : List (String × String)) :
    parseQuery (serializeQuery ps).data = ps := by
  unfold parseQuery serializeQuery
  rw [show (String.mk (serializeQueryChars (ps.map fun kv => (kv.1.data, kv.2.data)))).data =
    serializeQueryChars (ps.map fun kv => (kv.1.data, kv.2.data)) from rfl]
  rw [decodeQueryChars_serializeQueryChars, List.map_map]
  exact List.map_id'' (fun kv => rfl) ps

/-! ## General lemmas about the builder -/

theorem buildUrl_congr {R S : Type} {st : RequestHandler R} {st2 : RequestHandler S}
    (h1 : st.baseUrl = st2.baseUrl) (h2 : st.apiParams = st2.apiParams) :
    st.buildUrl = st2.buildUrl := by
  unfold RequestHandler.buildUrl
  rw [h1, h2]

theorem step_hbAgree {R : Type} {st st2 : RequestHandler R} (h : hbAgree st st2) (op : Op R) :
    hbAgree (step st op).1 (step st2 op).1 ∧ (step st op).2 = (step st2 op).2 := by
  obtain ⟨h1, h2, h3, h4, h5⟩ := h
  cases op with
  | url u => exact ⟨⟨h1, rfl, h3, h4, h5⟩, rfl⟩
  | path p => exact ⟨⟨h1, h2, rfl, h4, h5⟩, rfl⟩
  | param p => exact ⟨⟨h1, h2, h3, rfl, h5⟩, rfl⟩
  | header hh => exact ⟨⟨h1, h2, h3, h4, h5⟩, rfl⟩
  | body b => exact ⟨⟨h1, h2, h3, h4, h5⟩, rfl⟩
  | withRequest r => exact ⟨⟨h1, h2, h3, h4, rfl⟩, rfl⟩
  | reset => exact ⟨⟨h1, rfl, rfl, rfl, h5⟩, rfl⟩
  | buildUrl => exact ⟨⟨h1, h2, h3, h4, h5⟩, congrArg Out.urlResult (buildUrl_congr h2 h4)⟩

theorem runOps_hbAgree {R : Type} (ops : List (Op R)) :
    ∀ st st2 : RequestHandler R, hbAgree st st2 → (runOps st ops).2 = (runOps st2 ops).2 := by
  induction ops with
  | nil => intro _ _ _; rfl
  | cons op ops ih =>
    intro st st2 h
    have hs := step_hbAgree h op
    show (step st op).2 :: (runOps (step st op).1 ops).2 =
      (step st2 op).2 :: (runOps (step st2 op).1 ops).2
    rw [hs.2, ih _ _ hs.1]

/-! ## The claims -/

/-- C1.  The claim says `composeUrl()` joins the resolved origin and the
stored path with exactly one slash.  The code never does: `buildUrl` never
reads `apiPath`.  At the failing input `url('https://api.example.com')`,
`path('/users')` the code returns `"https://api.example.com/"` without the
path segment, and in general the stored path has no effect whatsoever on the
produced URL. -/
theorem c1_stored_path_never_used :
    ((emptyHandler Unit).url "https://api.example.com" |>.path "/users").buildUrl =
        .ok "https://api.example.com/" ∧
      ∀ (R : Type) (st : RequestHandler R) (p q : String),
        (st.path p).buildUrl = (st.path q).buildUrl :=
  ⟨rfl, fun _ _ _ _ => rfl⟩

/-- C2.  The claim says an unset/empty `baseUrl` makes `composeUrl()` fall
back to the default origin and succeed.  In the code `baseUrl` is a
non-nullable string initialized to `''`, so `baseUrl ?? defaultBaseUrl`
always keeps `baseUrl` and `new URL('')` throws: with only
`path('/api/tags')` the call fails with the invalid-URL error, and so does a
call right after `reset()` — even though the default origin itself parses
fine, so the claimed fallback would have succeeded. -/
theorem c2_empty_baseUrl_never_falls_back :
    ((emptyHandler Unit).path "/api/tags").buildUrl = .error .invalidUrl ∧
      (emptyHandler Unit).reset.buildUrl = .error .invalidUrl ∧
      parseURL (emptyHandler Unit).defaultBaseUrl =
        some ⟨"https", "conduit-api.bondaracademy.com", "", []⟩ :=
  ⟨rfl, rfl, rfl⟩

/-- C3 (counterexample).  The claim says `composeUrl()` fails exactly when
the resolved origin — the default origin when `baseUrl` is unset — is not a
valid absolute URL.  On a fresh builder the resolved origin per the claim is
the default origin, which is valid, yet `buildUrl` fails: the claimed
equivalence is false. -/
theorem c3_claim_counterexample :
    (parseURL (emptyHandler Unit).defaultBaseUrl).isSome = true ∧
      (emptyHandler Unit).buildUrl = .error .invalidUrl :=
  ⟨rfl, rfl⟩

/-- C3 (amended).  `composeUrl()` fails with the invalid-URL error exactly
when the stored `baseUrl` string itself — the empty string when unset or
reset — is not a syntactically valid absolute URL; the default origin is
never consulted (changing it never changes the result); and no other public
operation can fail (every non-`buildUrl` operation returns `this`). -/
theorem c3_error_iff_stored_baseUrl_invalid {R : Type} (st : RequestHandler R) :
    (st.buildUrl = .error .invalidUrl ↔ parseURL st.baseUrl = none) ∧
      (∀ d : String, ({ st with defaultBaseUrl := d } : RequestHandler R).buildUrl =
        st.buildUrl) ∧
      ∀ op : Op R, op ≠ Op.buildUrl → (step st op).2 = Out.self := by
  refine ⟨?_, fun d => rfl, fun op hop => ?_⟩
  · cases h : parseURL st.baseUrl <;> simp [RequestHandler.buildUrl, h]
  · cases op <;> first | rfl | exact absurd rfl hop

/-- C3 (witness).  The amended theorem applied to the fresh builder and a
concrete non-`buildUrl` operation. -/
theorem c3_error_iff_witness :
    (step (emptyHandler Unit) (Op.url "https://e.com")).2 = Out.self :=
  (c3_error_iff_stored_baseUrl_invalid (emptyHandler Unit)).2.2 _ (by decide)

/-- C4.  The claim says the stored headers and body are retrievable through
the builder's public interface.  They are not: all fields are private, no
accessor exists, and `buildUrl` reads only `baseUrl` and `apiParams`.
Formally, two builder states that agree on everything except the stored
header and body objects produce identical observable outputs under every
sequence of public calls, so no client of the public interface can read the
stored headers or body back. -/
theorem c4_header_body_unobservable {R : Type} (ops : List (Op R))
    (st : RequestHandler R) (hd1 hd2 bd1 bd2 : JsObject) :
    (runOps { st with apiHeader := hd1, apiBody := bd1 } ops).2 =
      (runOps { st with apiHeader := hd2, apiBody := bd2 } ops).2 :=
  runOps_hbAgree ops _ _ ⟨rfl, rfl, rfl, rfl, rfl⟩

/-- C5.  A second `param(...)` call replaces the whole stored parameter
object (no merge), and likewise for `header(...)`; concretely,
`param({a:1})` then `param({b:2})` yields a URL containing `b=2` and no
`a=1`. -/
theorem c5_second_call_replaces {R : Type} (st : RequestHandler R) (m1 m2 h1 h2 : JsObject) :
    (st.param m1).param m2 = st.param m2 ∧ (st.param m2).apiParams = m2 ∧
      (st.header h1).header h2 = st.header h2 ∧ (st.header h2).apiHeader = h2 ∧
      ((emptyHandler Unit).url "https://conduit-api.bondaracademy.com"
          |>.param [("a", JsValue.num 1)] |>.param [("b", JsValue.num 2)]).buildUrl =
        .ok "https://conduit-api.bondaracademy.com/?b=2" :=
  ⟨rfl, rfl, rfl, rfl, rfl⟩

/-- C6.  `reset()` restores `baseUrl`, `apiPath`, `apiParams`, `apiHeader`
and `apiBody` to their just-constructed values and leaves the bound
Playwright request handle (and the constant default origin) unchanged, from
every builder state. -/
theorem c6_reset_clears_all_but_transport {R : Type} (st : RequestHandler R) :
    st.reset = { defaultBaseUrl := st.defaultBaseUrl, baseUrl := "", apiPath := "",
                 apiParams := [], apiHeader := [], apiBody := [], request := st.request } :=
  rfl

/-- C7.  `buildUrl()` mutates nothing and is deterministic: running it twice
from any state leaves the state exactly as it was and returns the same
result both times. -/
theorem c7_buildUrl_mutates_nothing {R : Type} (st : RequestHandler R) :
    (runOps st [Op.buildUrl, Op.buildUrl]).1 = st ∧
      (runOps st [Op.buildUrl, Op.buildUrl]).2 =
        [Out.urlResult st.buildUrl, Out.urlResult st.buildUrl] :=
  ⟨rfl, rfl⟩

/-- C8.  The query string serialized by `buildUrl` round-trips: for every
stored parameter object (arbitrary unicode strings and integer values),
parsing the serialized query string back with the standard urlencoded parser
recovers exactly the stringified key/value pairs, and this holds for every
pair list in general. -/
theorem c8_query_string_roundtrip (params : JsObject) (ps : List (String × String)) :
    parseQuery (serializeQuery ps).data = ps ∧
      parseQuery (serializeQuery (stringEntries params)).data = stringEntries params :=
  ⟨parseQuery_serializeQuery ps, parseQuery_serializeQuery (stringEntries params)⟩

/-- C9.  Every configuration method (`url`, `path`, `param`, `header`,
`body`, `withRequest`, `reset`) returns the very reference it was invoked
on: in the reference-level semantics the returned reference equals the
receiver, for every store, receiver and argument. -/
theorem c9_fluent_identity {R : Type} (σ : Store R) (self : Nat) (u p : String)
    (pm hd bd : JsObject) (r : R) :
    (urlRef σ self u).2 = self ∧ (pathRef σ self p).2 = self ∧
      (paramRef σ self pm).2 = self ∧ (headerRef σ self hd).2 = self ∧
      (bodyRef σ self bd).2 = self ∧ (withRequestRef σ self r).2 = self ∧
      (resetRef σ self).2 = self :=
  ⟨rfl, rfl, rfl, rfl, rfl, rfl, rfl⟩

/-- C10.  When the stored `baseUrl` itself carries a query string, `buildUrl`
keeps those pre-existing pairs and appends the stored parameter entries after
them: for every state whose `baseUrl` parses, the result is the parsed URL
serialized with the stored entries appended at the end of its search-params
list. -/
theorem c10_base_query_preserved {R : Type} (st : RequestHandler R) (u : URLRec)
    (h : parseURL st.baseUrl = some u) :
    st.buildUrl =
      .ok (urlToString { u with searchParams := u.searchParams ++ stringEntries st.apiParams }) := by
  unfold RequestHandler.buildUrl
  rw [h]

/-- C10 (witness).  A base URL already holding `a=1` plus a stored parameter
`b=2` yields `...?a=1&b=2`. -/
theorem c10_base_query_preserved_witness :
    ((emptyHandler Unit).url "https://x.com/p?a=1" |>.param [("b", JsValue.num 2)]).buildUrl =
      .ok "https://x.com/p?a=1&b=2" :=
  (c10_base_query_preserved
    ((emptyHandler Unit).url "https://x.com/p?a=1" |>.param [("b", JsValue.num 2)])
    ⟨"https", "x.com", "/p", [("a", "1")]⟩ rfl).trans rfl
